import Mathlib

/-!
Verification of the RLDP-over-ADNL HTTP transport bridge
(`adnl/rldp/http/client.go`) of the `tonutils-go` repository.

Go strings are modelled as lists of character code points (`GoStr`), byte
slices as lists of naturals below 256.  Machine integers are modelled as
`Int`/`Nat` with explicit wraparound where the Go code computes in a fixed
width (`int32` multiplication in the pull handler).  Fallible operations
return `Except GoError`; a Go runtime panic (nil dereference, slice bounds
out of range) is a distinguished outcome, never a value.
-/

/-- A Go string, as its list of character code points. -/
abbrev GoStr := List Nat

/-- Code points of a Lean string literal, for writing `GoStr` constants. -/
def ofString (s : String) : GoStr := s.toList.map Char.toNat

/-- Errors produced by the client code (`fmt.Errorf`/`errors.New` sites) or
by external collaborators (`.external`).  Wrapping (`%w`) is kept as a
constructor argument. -/
inductive GoError where
  | wrongIdLength
  | base32DecodeFailed
  | invalidFirstByte
  | invalidChecksum
  | parseAddrFailed (e : GoError)
  | resolveFailed (e : GoError)
  | dhtLookupFailed (e : GoError)
  | connectFailed (tried : List GoStr) (e : GoError)
  | readBodyFailed (e : GoError)
  | queryFailed (e : GoError)
  | parseContentLengthFailed
  | partQueryFailed (seqno : Int) (e : GoError)
  | unknownRequestId
  | offsetOutOfRange
  | unexpectedQueryType (t : GoStr)
  | sendAnswerFailed (e : GoError)
  | external (code : Nat)
  deriving DecidableEq, Repr

/-- `strings.ToUpper` on one character, restricted to ASCII (the base-32
alphabet and the address strings at issue are ASCII). -/
def goUpperChar (c : Nat) : Nat := if 97 ≤ c ∧ c ≤ 122 then c - 32 else c

/-- `strings.ToUpper` on a string. -/
def goToUpper (s : GoStr) : GoStr := s.map goUpperChar

/-- Value of one character of the RFC 4648 base-32 alphabet
`ABCDEFGHIJKLMNOPQRSTUVWXYZ234567`, `none` for a character outside it. -/
def b32Val (c : Nat) : Option Nat :=
  if 65 ≤ c ∧ c ≤ 90 then some (c - 65)
  else if 50 ≤ c ∧ c ≤ 55 then some (c - 50 + 26)
  else none

/-- `encoding/base32` `StdEncoding.DecodeString`, for padding-free input:
each full group of 8 alphabet characters decodes to 5 bytes; any other
input fails.  (`=` padding and CR/LF stripping are not modelled: every
input reaching the decoder here is a 56-character string, which decodes
to exactly 35 bytes when it decodes at all.) -/
def base32Decode : GoStr → Option (List Nat)
  | [] => some []
  | c0 :: c1 :: c2 :: c3 :: c4 :: c5 :: c6 :: c7 :: rest => do
    let v0 ← b32Val c0
    let v1 ← b32Val c1
    let v2 ← b32Val c2
    let v3 ← b32Val c3
    let v4 ← b32Val c4
    let v5 ← b32Val c5
    let v6 ← b32Val c6
    let v7 ← b32Val c7
    let n := ((((((v0 * 32 + v1) * 32 + v2) * 32 + v3) * 32 + v4) * 32 + v5) * 32 + v6) * 32 + v7
    let tail ← base32Decode rest
    some ([n / 2 ^ 32 % 256, n / 2 ^ 24 % 256, n / 2 ^ 16 % 256, n / 2 ^ 8 % 256, n % 256] ++ tail)
  | _ => none

/-- One shift step of CRC-16/XMODEM (polynomial 0x1021, MSB first). -/
def crc16Bit (crc : Nat) : Nat :=
  if crc &&& 0x8000 ≠ 0 then ((crc <<< 1) ^^^ 0x1021) &&& 0xffff
  else (crc <<< 1) &&& 0xffff

/-- `n` shift steps of CRC-16/XMODEM. -/
def crc16Bits : Nat → Nat → Nat
  | 0, crc => crc
  | n + 1, crc => crc16Bits n (crc16Bit crc)

/-- `crc16.Checksum(data, crc16.MakeTable(crc16.CRC16_XMODEM))`:
init 0x0000, no reflection, no final xor. -/
def crc16 (data : List Nat) : Nat :=
  data.foldl (fun crc b => crc16Bits 8 (crc ^^^ (b <<< 8))) 0

/-- `parseADNLAddress` (client.go:300-321): length check, prepend `F`,
uppercase, base-32 decode, tag-byte check, CRC-16/XMODEM check over the
first 33 bytes against the big-endian last two bytes, and return
`buf[:32]`.  A successful decode of the 56-character input always yields
35 bytes, so the `getD` defaults never fire. -/
def parseADNLAddress (addr : GoStr) : Except GoError (List Nat) :=
  if addr.length ≠ 55 then .error .wrongIdLength
  else
    match base32Decode (70 :: goToUpper addr) with
    | none => .error .base32DecodeFailed
    | some buf =>
      if buf.headD 0 ≠ 0x2d then .error .invalidFirstByte
      else
        let hash := buf.getD 33 0 * 256 + buf.getD 34 0
        let calcSum := crc16 (buf.take 33)
        if hash ≠ calcSum then .error .invalidChecksum
        else .ok (buf.take 32)

/-- The concrete literal address whose embedded 32-byte key is
`1, 2, ..., 32` with a correct CRC-16/XMODEM checksum (0x3d47). -/
def adnlAddrC1 : GoStr := ofString "UAQEAYEAUDAOCAJBIFQYDIOB4IBCEQTCQKRMFYYDENBWHA5DYPSAPKH"

deriving instance DecidableEq for Except

/-- Two's-complement wraparound to a signed 32-bit value, for the Go
`int32` product `req.Seqno * req.MaxChunkSize`. -/
def wrap32 (x : Int) : Int := (x + 2 ^ 31) % 2 ^ 32 - 2 ^ 31

/-- Go slice expression `l[i:j]`: defined (as `some`) exactly when
`0 ≤ i ≤ j ≤ len(l)`; any other bounds panic (`none`). -/
def goSlice (l : List Nat) (i j : Int) : Option (List Nat) :=
  if 0 ≤ i ∧ i ≤ j ∧ j ≤ (l.length : Int) then
    some ((l.drop i.toNat).take (j.toNat - i.toNat))
  else none

/-- One lower-case hexadecimal digit. -/
def hexDigit (d : Nat) : Nat := if d < 10 then 48 + d else 87 + d

/-- `hex.EncodeToString`: two lower-case hex digits per byte. -/
def hexEncode (bs : List Nat) : GoStr :=
  bs.foldr (fun b acc => hexDigit (b / 16) :: hexDigit (b % 16) :: acc) []

/-- A protocol header pair (`Header{Name, Value}`). -/
structure HeaderKV where
  name : GoStr
  value : GoStr
  deriving DecidableEq, Repr

/-- `payloadStream`: a staged outbound body plus its creation timestamp. -/
structure PayloadStream where
  data : List Nat
  startTime : Nat
  deriving DecidableEq, Repr

/-- `PayloadPart`: one chunk of a streamed body. -/
structure PayloadPartMsg where
  data : List Nat
  trailer : List HeaderKV
  isLast : Bool
  deriving DecidableEq, Repr

/-- The data of an incoming RLDP query, after the type switch of
`getRLDPQueryHandler`: a `GetNextPayloadPart`, or any other payload type
(kept only by name). -/
inductive QueryData where
  | getNextPayloadPart (id : List Nat) (seqno : Int) (maxChunkSize : Int)
  | other (typeName : GoStr)
  deriving DecidableEq

/-- What the serving-side query handler decides to do: return an error,
panic (slice bounds out of range), or hand a `PayloadPart` to
`SendAnswer`.  (Failure of the send itself is a collaborator outcome and
not part of this decision.) -/
inductive HandlerOutcome where
  | err (e : GoError)
  | panicked
  | answer (part : PayloadPartMsg)
  deriving DecidableEq

/-- The query handler installed by `getRLDPQueryHandler`
(client.go:89-126): look the stream up by the hex-encoded request id;
compute `offset = int(req.Seqno * req.MaxChunkSize)` (a wrapping `int32`
product); reject `offset ≥ len(data)`; clamp `till` to the data length;
answer with `data[offset:till]` and `isLast = (till == len(data))`. -/
def rldpQueryHandler (activeRequests : List (GoStr × PayloadStream)) :
    QueryData → HandlerOutcome
  | .getNextPayloadPart id seqno maxChunkSize =>
    match activeRequests.lookup (hexEncode id) with
    | none => .err .unknownRequestId
    | some stream =>
      let offset := wrap32 (seqno * maxChunkSize)
      if (stream.data.length : Int) ≤ offset then .err .offsetOutOfRange
      else
        let till : Int :=
          if offset + maxChunkSize < (stream.data.length : Int) then offset + maxChunkSize
          else (stream.data.length : Int)
        match goSlice stream.data offset till with
        | none => .panicked
        | some chunk => .answer ⟨chunk, [], decide (till = (stream.data.length : Int))⟩
  | .other t => .err (.unexpectedQueryType t)

/-- Issue `k` sequential pull requests with sequence numbers
`s, s+1, ...` against the serving-side handler, collecting the answered
parts; `none` as soon as any query is not answered with a part. -/
def pullChunks (activeRequests : List (GoStr × PayloadStream)) (id : List Nat) (c : Int) :
    Nat → Nat → Option (List PayloadPartMsg)
  | 0, _ => some []
  | k + 1, s =>
    match rldpQueryHandler activeRequests (.getNextPayloadPart id (s : Int) c) with
    | .answer p => (pullChunks activeRequests id c k (s + 1)).map (p :: ·)
    | _ => none

/-- `ceil(l / c)` on naturals. -/
def ceilDiv (l c : Nat) : Nat := (l + c - 1) / c

/-- The slice `payload[a:b]` as the spec writes it (for `0 ≤ a ≤ b ≤ L`). -/
def sliceSpec (p : List Nat) (a b : Int) : List Nat :=
  (p.drop a.toNat).take (b.toNat - a.toNat)

/-- Claim C4 as stated: with a stream of payload `p` registered for `id`,
a pull request `(seqno, c)` fails with the offset error exactly when
`seqno*c ≥ len(p)` (as unbounded integers), and otherwise answers with
`p[seqno*c : min(seqno*c + c, len(p))]` and `isLast` true exactly when
the slice reaches the end. -/
def claimC4Prop (tbl : List (GoStr × PayloadStream)) (id : List Nat)
    (p : List Nat) (seqno c : Int) : Prop :=
  (rldpQueryHandler tbl (.getNextPayloadPart id seqno c) = .err .offsetOutOfRange ↔
    (p.length : Int) ≤ seqno * c) ∧
  (seqno * c < (p.length : Int) →
    rldpQueryHandler tbl (.getNextPayloadPart id seqno c) =
      .answer ⟨sliceSpec p (seqno * c) (min (seqno * c + c) (p.length : Int)), [],
        decide (min (seqno * c + c) (p.length : Int) = (p.length : Int))⟩)

/-- Claim C5 as stated: pulling chunks `0 .. ceil(L/C)-1` of a registered
stream succeeds, their concatenated data is the payload, and `isLast` is
true on the final chunk only. -/
def claimC5Prop (tbl : List (GoStr × PayloadStream)) (id : List Nat)
    (p : List Nat) (c : Nat) : Prop :=
  ∃ parts, pullChunks tbl id (c : Int) (ceilDiv p.length c) 0 = some parts ∧
    (parts.map (·.data)).flatten = p ∧
    parts.map (·.isLast) = List.replicate (ceilDiv p.length c - 1) false ++ [true]

/-- `strconv.ParseInt(s, 10, 64)`: optional sign, decimal digits,
64-bit range check; `none` on any failure. -/
def parseInt64 (s : GoStr) : Option Int :=
  let core : Bool → GoStr → Option Int := fun neg ds =>
    match ds.mapM (fun c => if 48 ≤ c ∧ c ≤ 57 then some ((c : Int) - 48) else none) with
    | none => none
    | some [] => none
    | some digits =>
      let v : Int := digits.foldl (fun a d => a * 10 + d) (0 : Int)
      let x := if neg then -v else v
      if -(2 ^ 63) ≤ x ∧ x ≤ (2 ^ 63 - 1 : Int) then some x else none
  match s with
  | 43 :: rest => core false rest
  | 45 :: rest => core true rest
  | _ => core false s

/-- An `http.Request` as `RoundTrip` consumes it: hostname, method,
`URL.String()`, the header map in its iteration order, the declared
content length, and the body (already read to bytes; `io.ReadAll` and
`Body.Close` are not separately modelled). -/
structure HttpRequest where
  host : GoStr
  method : GoStr
  url : GoStr
  headers : List (GoStr × List GoStr)
  contentLength : Int
  body : Option (List Nat)
  deriving DecidableEq

/-- The `http.Response` this transport builds: status reason and code,
headers, content length, trailers, body bytes. -/
structure HttpResponse where
  status : GoStr
  statusCode : Int
  header : List (GoStr × List GoStr)
  contentLength : Int
  trailer : List (GoStr × List GoStr)
  body : List Nat
  deriving DecidableEq

/-- The RLDP-level `Request` message built by the mapper. -/
structure RequestMsg where
  id : List Nat
  method : GoStr
  url : GoStr
  version : GoStr
  headers : List HeaderKV
  deriving DecidableEq

/-- The RLDP-level `Response` message. -/
structure ResponseMsg where
  statusCode : Int
  reason : GoStr
  headers : List HeaderKV
  noPayload : Bool
  deriving DecidableEq

/-- One candidate endpoint from the DHT (`address.List` entry). -/
structure Address where
  ip : GoStr
  port : Nat
  deriving DecidableEq

/-- `fmt.Sprintf("%s:%d", v.IP.String(), v.Port)`. -/
def addrStr (a : Address) : GoStr := a.ip ++ [58] ++ ofString (toString a.port)

/-- Go map assignment `m[k] = v` on an association list. -/
def mapSet (k : GoStr) (v : α) (m : List (GoStr × α)) : List (GoStr × α) :=
  (k, v) :: m.filter (fun p => decide (p.1 ≠ k))

/-- Go map deletion `delete(m, k)` on an association list. -/
def mapDel (k : GoStr) (m : List (GoStr × α)) : List (GoStr × α) :=
  m.filter (fun p => decide (p.1 ≠ k))

/-- The `Transport`'s shared mutable state: the RLDP client cache and the
table of staged outbound bodies.  Clients are opaque tokens (`Nat`). -/
structure TState where
  rldpClients : List (GoStr × Nat)
  activeRequests : List (GoStr × PayloadStream)
  deriving DecidableEq

/-- The external collaborators of one `RoundTrip` call, as response
functions: the DNS resolver (per retry attempt), the DHT, the
ADNL/RLDP connector (per formatted address), the RLDP query exchange,
the per-seqno payload-part pull, `crypto/rand` (modelled as infallible),
and the clock. -/
structure Oracle where
  resolve : Nat → Except GoError (List Nat)
  findAddresses : List Nat → Except GoError (List Address × List Nat)
  connect : GoStr → Except GoError Nat
  doQuery : Nat → RequestMsg → Except GoError ResponseMsg
  pullQuery : Nat → List Nat → Int → Except GoError PayloadPartMsg
  randBytes : Nat → List Nat
  now : Nat

/-- Observable interactions of one `RoundTrip` call, in order. -/
inductive Effect where
  | resolveAttempt (host : GoStr)
  | dhtFindAddresses (key : List Nat)
  | connectAttempt (addr : GoStr)
  | staged (key : GoStr) (data : List Nat)
  | rpcQuery (client : Nat) (msg : RequestMsg)
  | pullPart (client : Nat) (seqno : Int)
  | unstaged (key : GoStr)
  deriving DecidableEq

/-- Result of one `RoundTrip` call.  `.panicked` is the Go runtime panic
from calling `DoQuery` on the nil client left by an empty endpoint list;
`.fuelOut` is an artifact of bounding the (unbounded) Go pull loop by
fuel. -/
inductive RTResult where
  | ok (resp : HttpResponse)
  | err (e : GoError)
  | panicked
  | fuelOut
  deriving DecidableEq

/-- The bounded resolver retry (client.go:144-155): up to 3 attempts,
keeping the last error.  The 50 ms sleeps are not observable here. -/
def resolveWithRetry (o : Oracle) (host : GoStr) :
    Except GoError (List Nat) × List Effect :=
  match o.resolve 0 with
  | .ok d => (.ok d, [.resolveAttempt host])
  | .error _ =>
    match o.resolve 1 with
    | .ok d => (.ok d, [.resolveAttempt host, .resolveAttempt host])
    | .error _ =>
      match o.resolve 2 with
      | .ok d => (.ok d, [.resolveAttempt host, .resolveAttempt host, .resolveAttempt host])
      | .error e =>
        (.error (.resolveFailed e),
          [.resolveAttempt host, .resolveAttempt host, .resolveAttempt host])

/-- The candidate-endpoint loop (client.go:165-178): try each address in
order, stop at the first successful connection (which `connectRLDP`
stores in the client cache), and keep the last error and the list of
failed addresses.  When the loop ends, `err` decides: `nil` (an empty
list was iterated) leaves `rl == nil` (`.ok none`); otherwise the last
connection error is returned.  The query/disconnect handlers installed
by `connectRLDP` are not observable within a single call. -/
def connectLoop (o : Oracle) (host : GoStr) (clients : List (GoStr × Nat)) :
    List Address → Option GoError → List GoStr →
    Except GoError (Option Nat) × List (GoStr × Nat) × List Effect
  | [], none, _ => (.ok none, clients, [])
  | [], some e, tried => (.error (.connectFailed tried.reverse e), clients, [])
  | a :: rest, _, tried =>
    let s := addrStr a
    match o.connect s with
    | .ok c => (.ok (some c), mapSet host c clients, [.connectAttempt s])
    | .error e =>
      let (r, cl, eff) := connectLoop o host clients rest (some e) (s :: tried)
      (r, cl, .connectAttempt s :: eff)

/-- `ofString ".adnl"`, `ofString "Content-Length"`, `ofString "Host"`. -/
def adnlSuffix : GoStr := ofString ".adnl"

def clKey : GoStr := ofString "Content-Length"

def hostKey : GoStr := ofString "Host"

/-- The client-acquisition phase of `RoundTrip` (client.go:129-179):
cache lookup by hostname; on a miss, literal-address decoding or DNS
resolution, DHT lookup, then the candidate loop.  `.ok none` is the
empty-endpoint-list case in which the code continues with a nil client. -/
def acquireClient (o : Oracle) (st : TState) (host : GoStr) :
    Except GoError (Option Nat) × TState × List Effect :=
  match st.rldpClients.lookup host with
  | some c => (.ok (some c), st, [])
  | none =>
    let keyRes : Except GoError (List Nat) × List Effect :=
      if adnlSuffix.isSuffixOf host then
        match parseADNLAddress (host.take (host.length - 5)) with
        | .ok id => (.ok id, [])
        | .error e => (.error (.parseAddrFailed e), [])
      else resolveWithRetry o host
    match keyRes with
    | (Except.error e, eff) => (.error e, st, eff)
    | (Except.ok adnlID, eff) =>
      match o.findAddresses adnlID with
      | .error e => (.error (.dhtLookupFailed e), st, eff ++ [.dhtFindAddresses adnlID])
      | .ok (addrs, _pubKey) =>
        let (r, clients, eff2) := connectLoop o host st.rldpClients addrs none []
        (r, { st with rldpClients := clients }, eff ++ [.dhtFindAddresses adnlID] ++ eff2)

/-- The outbound message mapper (client.go:192-219): fresh identifier,
method, URL, fixed version, a `Host` header first, a `Content-Length`
header when the declared content length is positive, then every inbound
header value in iteration order. -/
def buildRequestMsg (request : HttpRequest) (qid : List Nat) : RequestMsg :=
  { id := qid
    method := request.method
    url := request.url
    version := ofString "HTTP/1.1"
    headers :=
      ⟨hostKey, request.host⟩ ::
        (if request.contentLength > 0 then
          [⟨clKey, ofString (toString request.contentLength)⟩] else []) ++
        request.headers.flatMap (fun kv => kv.2.map (fun v => ⟨kv.1, v⟩)) }

/-- The inbound response mapper (client.go:246-267): status and reason
from the RLDP response, headers folded last-write-wins, content length
`-1` unless the *inbound request's* `Content-Length` header parses. -/
def mkHttpResponse (request : HttpRequest) (res : ResponseMsg) :
    Except GoError HttpResponse :=
  let base : HttpResponse :=
    { status := res.reason
      statusCode := res.statusCode
      header := res.headers.foldl (fun acc h => mapSet h.name [h.value] acc) []
      contentLength := -1
      trailer := []
      body := [] }
  match request.headers.lookup clKey with
  | some (v :: _) =>
    match parseInt64 v with
    | some n => .ok { base with contentLength := n }
    | none => .error .parseContentLengthFailed
  | _ => .ok base

/-- Outcome of the body pull loop. -/
inductive LoopOut where
  | done (buf : List Nat) (trailers : List (GoStr × List GoStr))
  | fail (e : GoError)
  | fuelOut
  deriving DecidableEq

/-- The body pull loop (client.go:273-292): while the response still has
payload, query the next `PayloadPart` (id, seqno, fixed max chunk size),
abort on error, merge trailers, append data, And advance the (wrapping
`int32`) sequence number. -/
def pullLoop (o : Oracle) (c : Nat) (qid : List Nat) :
    Nat → Int → Bool → List Nat → List (GoStr × List GoStr) →
    LoopOut × List Effect
  | _, _, true, buf, tr => (.done buf tr, [])
  | 0, _, false, _, _ => (.fuelOut, [])
  | fuel + 1, seqno, false, buf, tr =>
    match o.pullQuery c qid seqno with
    | .error e => (.fail (.partQueryFailed seqno e), [.pullPart c seqno])
    | .ok part =>
      let tr2 := part.trailer.foldl (fun acc h => mapSet h.name [h.value] acc) tr
      let (r, eff) :=
        pullLoop o c qid fuel (wrap32 (seqno + 1)) part.isLast (buf ++ part.data) tr2
      (r, .pullPart c seqno :: eff)

/-- `Transport.RoundTrip` (client.go:128-298): acquire a client, generate
the 32-byte request id, build the message, stage the body (if any) under
the hex id, run the RLDP query — returning the error *without* removing
the staged entry on failure, and dereferencing a nil client when the
endpoint list was empty — then delete the staged entry, map the response,
and pull the body chunks when the derived content length is positive. -/
def roundTrip (o : Oracle) (fuel : Nat) (st : TState) (request : HttpRequest) :
    RTResult × TState × List Effect :=
  match acquireClient o st request.host with
  | (Except.error e, st1, eff) => (.err e, st1, eff)
  | (Except.ok rlOpt, st1, eff) =>
    let qid := o.randBytes 32
    let msg := buildRequestMsg request qid
    let key := hexEncode qid
    let (st2, eff2) : TState × List Effect :=
      match request.body with
      | some data =>
        ({ st1 with activeRequests := mapSet key ⟨data, o.now⟩ st1.activeRequests },
          eff ++ [.staged key data])
      | none => (st1, eff)
    match rlOpt with
    | none => (RTResult.panicked, st2, eff2)
    | some c =>
      match o.doQuery c msg with
      | .error e => (RTResult.err (.queryFailed e), st2, eff2 ++ [.rpcQuery c msg])
      | .ok res =>
        let st3 := { st2 with activeRequests := mapDel key st2.activeRequests }
        let eff3 := eff2 ++ [.rpcQuery c msg, .unstaged key]
        match mkHttpResponse request res with
        | .error e => (RTResult.err e, st3, eff3)
        | .ok resp0 =>
          if resp0.contentLength > 0 then
            match pullLoop o c qid fuel 0 res.noPayload [] resp0.trailer with
            | (LoopOut.done buf tr, eff4) =>
              (RTResult.ok { resp0 with body := buf, trailer := tr }, st3, eff3 ++ eff4)
            | (LoopOut.fail e, eff4) => (.err e, st3, eff3 ++ eff4)
            | (LoopOut.fuelOut, eff4) => (.fuelOut, st3, eff3 ++ eff4)
          else (RTResult.ok resp0, st3, eff3)

/-- The first RLDP `Request` message sent during a call, if any. -/
def findRpcMsg (effs : List Effect) : Option RequestMsg :=
  effs.findSome? (fun e => match e with | .rpcQuery _ m => some m | _ => none)

/-- The content length `RoundTrip` derives: the parse of the inbound
request's own `Content-Length` header when present (with a value), `-1`
otherwise.  A function of the request alone. -/
def derivedCL (request : HttpRequest) : Option Int :=
  match request.headers.lookup clKey with
  | some (v :: _) => parseInt64 v
  | _ => some (-1)

/-- `true` on the effects claim C8 rules out on a cache hit: name
resolution, directory lookup, connection attempts. -/
def isResolutionEffect : Effect → Bool
  | .resolveAttempt _ => true
  | .dhtFindAddresses _ => true
  | .connectAttempt _ => true
  | _ => false

/-- The client token an effect interacts with, if any. -/
def effClient : Effect → Option Nat
  | .rpcQuery c _ => some c
  | .pullPart c _ => some c
  | _ => none

/-- A hostname for concrete runs. -/
def hostX : GoStr := ofString "site.ton"

/-- A trivial successful RLDP response: status 200, no headers, no body. -/
def respOkMsg : ResponseMsg :=
  { statusCode := 200, reason := ofString "200 OK", headers := [], noPayload := true }

/-- A concrete collaborator environment: resolution succeeds, the DHT
returns an *empty* endpoint list, queries answer `respOkMsg`, randomness
is all-zero. -/
def baseOracle : Oracle :=
  { resolve := fun _ => .ok [5, 6]
    findAddresses := fun _ => .ok ([], [9])
    connect := fun _ => .error (.external 0)
    doQuery := fun _ _ => .ok respOkMsg
    pullQuery := fun _ _ _ => .error (.external 1)
    randBytes := fun n => List.replicate n 0
    now := 77 }

/-- Empty transport state. -/
def st0 : TState := { rldpClients := [], activeRequests := [] }

/-- State whose client cache already holds `hostX ↦ 7`. -/
def stHit : TState := { rldpClients := [(hostX, 7)], activeRequests := [] }

/-- A bodyless GET to `hostX`. -/
def reqC3 : HttpRequest :=
  { host := hostX, method := ofString "GET", url := ofString "/"
    headers := [], contentLength := 0, body := none }

/-- Oracle whose RLDP query exchange fails. -/
def oC2 : Oracle := { baseOracle with doQuery := fun _ _ => .error (.external 3) }

/-- A request carrying a 3-byte body with declared length 3. -/
def reqC2 : HttpRequest := { reqC3 with contentLength := 3, body := some [1, 2, 3] }

/-- A request with a non-nil body but declared content length 0, whose
header map nevertheless contains a `Content-Length` entry. -/
def reqC10 : HttpRequest :=
  { reqC3 with headers := [(clKey, [ofString "5"])], contentLength := 0, body := some [1] }

/-- A request with a non-nil body, declared content length 0, and no
`Content-Length` header of its own. -/
def reqC10w : HttpRequest := { reqC3 with contentLength := 0, body := some [4] }

/-- Pull-handler table registering payload `[7]` under stream id `[9]`. -/
def tblTiny : List (GoStr × PayloadStream) := [(hexEncode [9], ⟨[7], 0⟩)]

/-- Pull-handler table registering payload `[1,2,3]` under id `[9]`. -/
def tblW4 : List (GoStr × PayloadStream) := [(hexEncode [9], ⟨[1, 2, 3], 0⟩)]

/-- Pull-handler table registering payload `[1,2,3,4,5]` under id `[9]`. -/
def tblW5 : List (GoStr × PayloadStream) := [(hexEncode [9], ⟨[1, 2, 3, 4, 5], 0⟩)]

/-- A payload one byte longer than `2^31`. -/
def bigPayload : List Nat := List.replicate (2 ^ 31 + 1) 0

/-- Pull-handler table registering `bigPayload` under id `[9]`. -/
def tblBig : List (GoStr × PayloadStream) := [(hexEncode [9], ⟨bigPayload, 0⟩)]

/-- Fifty-five `a`s: a syntactically well-lengthed literal address. -/
def addr55a : GoStr := ofString "aaaaaaaaaaaaaaaaaaaaaaaaaaaaaaaaaaaaaaaaaaaaaaaaaaaaaaa"

/-- The `i`-th chunk of `p` at chunk size `c`. -/
def chunkAt (p : List Nat) (c i : Nat) : List Nat := (p.drop (i * c)).take c

/-- The payload part the handler answers for chunk `i` (in-range case). -/
def partAt (p : List Nat) (c i : Nat) : PayloadPartMsg :=
  ⟨chunkAt p c i, [], decide (p.length ≤ i * c + c)⟩


set_option maxRecDepth 10000

/-- C1 (code bug): on a 55-character literal address that passes the
length, tag and checksum checks — `adnlAddrC1`, which embeds the key
bytes `1..32` — `parseADNLAddress` returns `buf[:32]`, i.e. the tag byte
`0x2d` followed by only the first 31 key bytes, not the 32 bytes
`buf[1:33]` that follow the tag byte (which the spec, and the reference
decoder quoted in the file's own trailing comment, prescribe). -/
theorem c1_parse_returns_tag_prefixed_bytes :
    parseADNLAddress adnlAddrC1 = .ok (45 :: List.range' 1 31) ∧
      (45 :: List.range' 1 31 : List Nat) ≠ List.range' 1 32 := by
  constructor
  · decide
  · decide

/-- C2 (code bug): when the RPC exchange fails, `RoundTrip` returns the
error but the staged `ActiveStream` entry for the request id is still in
the table afterwards — the deletion only happens on the success path. -/
theorem c2_active_stream_leaks_on_query_failure :
    (roundTrip oC2 1 stHit reqC2).1 = .err (.queryFailed (.external 3)) ∧
      (roundTrip oC2 1 stHit reqC2).2.1.activeRequests.lookup
        (hexEncode (List.replicate 32 0)) = some ⟨[1, 2, 3], 77⟩ := by
  constructor
  · decide
  · decide

/-- C3 (code bug): when the directory lookup succeeds but returns an
empty endpoint list, the candidate loop never runs, `err` stays `nil`,
and `RoundTrip` proceeds to call `DoQuery` on the nil client — a panic,
not a returned error. -/
theorem c3_panics_on_empty_endpoint_list :
    (roundTrip baseOracle 1 st0 reqC3).1 = .panicked := by decide

/-- C4, counterexample: with payload `[7]` registered (length 1), the
pull request `seqno = 65536`, `maxChunkSize = 65536` has mathematical
offset `2^32 ≥ 1`, but the `int32` product wraps to 0, so the handler
answers with the whole payload instead of failing with the offset error:
the claim's unbounded-arithmetic reading is false. -/
theorem c4_counterexample : ¬ claimC4Prop tblTiny [9] [7] 65536 65536 := by
  unfold claimC4Prop
  decide

/-- C9: the address codec is case-insensitive — the input is uppercased
before base-32 decoding, and uppercasing is idempotent, so any
55-character string and its uppercase form decode identically. -/
theorem c9_parse_case_insensitive (s : GoStr) (_h : s.length = 55) :
    parseADNLAddress s = parseADNLAddress (goToUpper s) := by
  have hlen : (goToUpper s).length = s.length := List.length_map s goUpperChar
  have hidem : goToUpper (goToUpper s) = goToUpper s := by
    unfold goToUpper
    rw [List.map_map]
    refine List.map_congr_left fun c _ => ?_
    show goUpperChar (goUpperChar c) = goUpperChar c
    unfold goUpperChar
    split_ifs <;> omega
  unfold parseADNLAddress
  rw [hlen, hidem]

/-- Witness for C9 at the concrete 55-character input `addr55a`. -/
theorem c9_witness :
    addr55a.length = 55 ∧
      parseADNLAddress addr55a = parseADNLAddress (goToUpper addr55a) :=
  ⟨by decide, c9_parse_case_insensitive addr55a (by decide)⟩

/-- C6, counterexample: in a concrete successful exchange, the
`RequestMessage` actually sent carries a 32-byte identifier
(`qid := make([]byte, 32)`), not the 16-byte identifier the claim
states. -/
theorem c6_counterexample :
    (findRpcMsg (roundTrip baseOracle 1 stHit reqC3).2.2).map (fun m => m.id.length) =
        some 32 ∧ (32 : Nat) ≠ 16 := by
  constructor
  · decide
  · decide

/-- C10, counterexample: for a request with a non-nil body and declared
content length 0 whose own header collection contains a `Content-Length`
entry, the body is staged but the built `RequestMessage` *does* carry a
`Content-Length` header (copied verbatim by the header loop), so the
claim's "carries no `Content-Length` header" is false as stated. -/
theorem c10_counterexample :
    reqC10.body = some [1] ∧ reqC10.contentLength ≤ 0 ∧
      (findRpcMsg (roundTrip baseOracle 1 stHit reqC10).2.2).map
        (fun m => m.headers.any (fun h => h.name == clKey)) = some true := by
  refine ⟨by decide, by decide, by decide⟩

/-- `wrap32` is the identity on values already in `int32` range. -/
theorem wrap32_eq_of_bounds (x : Int) (h1 : -(2 ^ 31) ≤ x) (h2 : x < 2 ^ 31) :
    wrap32 x = x := by
  unfold wrap32
  omega

/-- C4 (amended): the stated offset-check behaviour holds whenever the
`int32` product `seqno * maxChunkSize` does not overflow — for
`0 ≤ seqno`, `0 ≤ c`, `seqno*c < 2^31` the handler fails with the offset
error exactly when `seqno*c ≥ L` and otherwise answers with
`payload[seqno*c : min(seqno*c+c, L)]` and `isLast ↔` the slice reaches
the end. -/
theorem c4_pull_offset_check (tbl : List (GoStr × PayloadStream)) (id : List Nat)
    (stream : PayloadStream) (p : List Nat) (seqno c : Int)
    (hlook : tbl.lookup (hexEncode id) = some stream) (hdata : stream.data = p)
    (hs : 0 ≤ seqno) (hc : 0 ≤ c) (hb : seqno * c < 2 ^ 31) :
    claimC4Prop tbl id p seqno c := by
  subst hdata
  have hw : wrap32 (seqno * c) = seqno * c :=
    wrap32_eq_of_bounds _ (le_trans (by norm_num) (mul_nonneg hs hc)) hb
  unfold claimC4Prop
  simp only [rldpQueryHandler, hlook, hw]
  by_cases hle : (stream.data.length : Int) ≤ seqno * c
  · rw [if_pos hle]
    refine ⟨by simp [hle], fun hlt => absurd hle (not_le.mpr hlt)⟩
  · have hlt : seqno * c < (stream.data.length : Int) := not_le.mp hle
    rw [if_neg hle]
    have htill :
        (if seqno * c + c < (stream.data.length : Int) then seqno * c + c
          else (stream.data.length : Int)) =
          min (seqno * c + c) (stream.data.length : Int) := by
      rw [min_def]
      split_ifs <;> omega
    rw [htill]
    have hslice :
        goSlice stream.data (seqno * c) (min (seqno * c + c) (stream.data.length : Int)) =
          some (sliceSpec stream.data (seqno * c)
            (min (seqno * c + c) (stream.data.length : Int))) := by
      unfold goSlice sliceSpec
      rw [if_pos]
      exact ⟨mul_nonneg hs hc, by omega, by omega⟩
    rw [hslice]
    exact ⟨by simpa using hlt, fun _ => rfl⟩

/-- Witness for C4 at payload `[1,2,3]`, `seqno = 1`, `maxChunkSize = 2`. -/
theorem c4_witness :
    tblW4.lookup (hexEncode [9]) = some ⟨[1, 2, 3], 0⟩ ∧
      claimC4Prop tblW4 [9] [1, 2, 3] 1 2 :=
  ⟨by decide,
    c4_pull_offset_check tblW4 [9] ⟨[1, 2, 3], 0⟩ [1, 2, 3] 1 2 (by decide) rfl
      (by decide) (by decide) (by decide)⟩

/-- `ceilDiv` via floor division of the predecessor. -/
theorem ceilDiv_succ (l c : Nat) (hc : 0 < c) (hl : 0 < l) :
    ceilDiv l c = (l - 1) / c + 1 := by
  unfold ceilDiv
  have h : l + c - 1 = (l - 1) + c := by omega
  rw [h, Nat.add_div_right _ hc]

/-- All chunk offsets below the last stay strictly inside the payload. -/
theorem ceilDiv_pred_mul_le (l c : Nat) (hc : 0 < c) (hl : 0 < l) :
    (ceilDiv l c - 1) * c ≤ l - 1 := by
  rw [ceilDiv_succ l c hc hl]
  simpa using Nat.div_mul_le_self (l - 1) c

/-- `ceilDiv l c` chunks of size `c` cover the payload. -/
theorem le_ceilDiv_mul (l c : Nat) (hc : 0 < c) (hl : 0 < l) :
    l ≤ ceilDiv l c * c := by
  rw [ceilDiv_succ l c hc hl]
  have h := (Nat.div_lt_iff_lt_mul hc).mp (Nat.lt_succ_self ((l - 1) / c))
  rw [Nat.succ_eq_add_one] at h
  omega

/-- For an in-range chunk index the handler answers with exactly the
`i`-th chunk. -/
theorem handler_answers (tbl : List (GoStr × PayloadStream)) (id : List Nat)
    (stream : PayloadStream) (c : Nat)
    (hlook : tbl.lookup (hexEncode id) = some stream)
    (hL : stream.data.length ≤ 2 ^ 31)
    (i : Nat) (hi : i * c < stream.data.length) :
    rldpQueryHandler tbl (.getNextPayloadPart id (i : Int) (c : Int)) =
      .answer (partAt stream.data c i) := by
  have hiw : ((i * c : Nat) : Int) < 2 ^ 31 := by
    exact_mod_cast lt_of_lt_of_le hi hL
  have hw : wrap32 ((i : Int) * (c : Int)) = ((i * c : Nat) : Int) := by
    rw [← Nat.cast_mul]
    exact wrap32_eq_of_bounds _ (le_trans (by norm_num) (Int.natCast_nonneg _)) hiw
  unfold rldpQueryHandler
  dsimp only
  rw [hlook]
  dsimp only
  rw [hw]
  rw [if_neg (by exact_mod_cast not_le.mpr hi)]
  by_cases hcase : ((i * c : Nat) : Int) + (c : Int) < (stream.data.length : Int)
  · rw [if_pos hcase]
    have hsl : goSlice stream.data ((i * c : Nat) : Int) (((i * c : Nat) : Int) + (c : Int)) =
        some ((stream.data.drop (i * c)).take c) := by
      unfold goSlice
      rw [if_pos ⟨Int.natCast_nonneg _, by omega, le_of_lt hcase⟩]
      have h3 : (((i * c : Nat) : Int) + (c : Int)).toNat - ((i * c : Nat) : Int).toNat = c := by
        omega
      rw [h3, Int.toNat_natCast]
    rw [hsl]
    unfold partAt chunkAt
    have hflag : decide ((((i * c : Nat) : Int) + (c : Int)) = (stream.data.length : Int)) =
        decide (stream.data.length ≤ i * c + c) := by
      rw [decide_eq_decide]
      omega
    rw [hflag]
  · rw [if_neg hcase]
    have hle : stream.data.length ≤ i * c + c := by omega
    have hsl : goSlice stream.data ((i * c : Nat) : Int) (stream.data.length : Int) =
        some ((stream.data.drop (i * c)).take c) := by
      unfold goSlice
      rw [if_pos ⟨Int.natCast_nonneg _, by exact_mod_cast le_of_lt hi, le_refl _⟩]
      have h3 : ((stream.data.length : Nat) : Int).toNat - ((i * c : Nat) : Int).toNat =
          stream.data.length - i * c := by omega
      rw [h3, Int.toNat_natCast]
      rw [List.take_of_length_le (by rw [List.length_drop]),
        List.take_of_length_le (by rw [List.length_drop]; omega)]
    rw [hsl]
    unfold partAt chunkAt
    have hflag : decide ((stream.data.length : Int) = (stream.data.length : Int)) =
        decide (stream.data.length ≤ i * c + c) := by
      rw [decide_eq_decide]
      omega
    rw [hflag]

/-- Sequential pulls with in-range sequence numbers each answer a chunk. -/
theorem pullChunks_spec (tbl : List (GoStr × PayloadStream)) (id : List Nat)
    (stream : PayloadStream) (c : Nat)
    (hlook : tbl.lookup (hexEncode id) = some stream)
    (hc : 0 < c) (hL : stream.data.length ≤ 2 ^ 31) (hL0 : 0 < stream.data.length) :
    ∀ k s, s + k ≤ ceilDiv stream.data.length c →
      pullChunks tbl id (c : Int) k s =
        some ((List.range' s k).map (partAt stream.data c)) := by
  intro k
  induction k with
  | zero => intro s _; simp [pullChunks]
  | succ k ih =>
    intro s hs
    have h1 : s ≤ ceilDiv stream.data.length c - 1 := by omega
    have h2 : s * c ≤ (ceilDiv stream.data.length c - 1) * c := Nat.mul_le_mul_right c h1
    have h3 := ceilDiv_pred_mul_le stream.data.length c hc hL0
    have hi : s * c < stream.data.length := by omega
    have hstep : List.range' s (k + 1) = s :: List.range' (s + 1) k := rfl
    simp only [pullChunks, handler_answers tbl id stream c hlook hL s hi,
      ih (s + 1) (by omega), hstep, List.map_cons, Option.map_some']

/-- Concatenating `k` successive chunks starting at chunk `s` gives the
corresponding contiguous span of the payload. -/
theorem flatten_chunks (p : List Nat) (c : Nat) :
    ∀ k s, ((List.range' s k).map (chunkAt p c)).flatten = (p.drop (s * c)).take (k * c) := by
  intro k
  induction k with
  | zero => intro s; simp
  | succ k ih =>
    intro s
    have hstep : List.range' s (k + 1) = s :: List.range' (s + 1) k := rfl
    rw [hstep, List.map_cons, List.flatten_cons, ih (s + 1)]
    have hmul : (k + 1) * c = c + k * c := by ring
    rw [hmul, List.take_add]
    have hdd : p.drop ((s + 1) * c) = (p.drop (s * c)).drop c := by
      rw [List.drop_drop]
      have : s * c + c = (s + 1) * c := by ring
      rw [this]
    rw [hdd]
    rfl

/-- The `isLast` flags of the `ceil(L/C)` chunks: `false` everywhere but
on the final chunk. -/
theorem isLast_pattern (p : List Nat) (c : Nat) (hc : 0 < c) (hL0 : 0 < p.length) :
    (List.range' 0 (ceilDiv p.length c)).map (fun i => (partAt p c i).isLast) =
      List.replicate (ceilDiv p.length c - 1) false ++ [true] := by
  have hn1 : 1 ≤ ceilDiv p.length c := by
    rw [ceilDiv_succ _ _ hc hL0]
    exact Nat.succ_le_succ (Nat.zero_le _)
  have hsplit : ceilDiv p.length c = (ceilDiv p.length c - 1) + 1 := by omega
  have hcov := le_ceilDiv_mul p.length c hc hL0
  rw [hsplit, Nat.add_mul, one_mul] at hcov
  have hpred := ceilDiv_pred_mul_le p.length c hc hL0
  have hlast : (partAt p c (ceilDiv p.length c - 1)).isLast = true := by
    unfold partAt
    exact decide_eq_true hcov
  have h2 : (List.range' 0 (ceilDiv p.length c - 1)).map (fun i => (partAt p c i).isLast) =
      List.replicate (ceilDiv p.length c - 1) false := by
    rw [List.eq_replicate_iff]
    refine ⟨by simp, ?_⟩
    intro b hb
    obtain ⟨i, hmem, rfl⟩ := List.exists_of_mem_map hb
    have hi : i < ceilDiv p.length c - 1 := by
      have := (List.mem_range'_1.mp hmem).2
      omega
    have h4 : i + 1 ≤ ceilDiv p.length c - 1 := hi
    have h5 := Nat.mul_le_mul_right c h4
    rw [Nat.add_mul, one_mul] at h5
    show (partAt p c i).isLast = false
    unfold partAt
    rw [decide_eq_false_iff_not]
    omega
  conv_lhs => rw [hsplit]
  rw [List.range'_concat, List.map_append, List.map_cons, List.map_nil]
  simp only [zero_add, one_mul, h2, hlast]

/-- C5 (amended): for a registered stream whose payload is non-empty and
no longer than `2^31` bytes (so no chunk offset overflows `int32`),
pulling chunks `0 .. ceil(L/C)-1` succeeds, their concatenation is the
payload, and `isLast` is true exactly on the final chunk. -/
theorem c5_sequential_pull_reconstructs (tbl : List (GoStr × PayloadStream)) (id : List Nat)
    (stream : PayloadStream) (p : List Nat) (c : Nat)
    (hlook : tbl.lookup (hexEncode id) = some stream) (hdata : stream.data = p)
    (hc : 0 < c) (hp : p ≠ []) (hL : p.length ≤ 2 ^ 31) :
    claimC5Prop tbl id p c := by
  subst hdata
  have hL0 : 0 < stream.data.length := List.length_pos.mpr hp
  refine ⟨(List.range' 0 (ceilDiv stream.data.length c)).map (partAt stream.data c),
    pullChunks_spec tbl id stream c hlook hc hL hL0 _ 0 (by omega), ?_, ?_⟩
  · rw [List.map_map]
    have hcomp : ((fun pt : PayloadPartMsg => pt.data) ∘ partAt stream.data c) =
        chunkAt stream.data c := rfl
    rw [hcomp, flatten_chunks]
    simp only [Nat.zero_mul, List.drop_zero]
    exact List.take_of_length_le (le_ceilDiv_mul _ _ hc hL0)
  · rw [List.map_map]
    exact isLast_pattern stream.data c hc hL0

/-- Witness for C5 at payload `[1,2,3,4,5]`, chunk size 2. -/
theorem c5_witness :
    tblW5.lookup (hexEncode [9]) = some ⟨[1, 2, 3, 4, 5], 0⟩ ∧
      claimC5Prop tblW5 [9] [1, 2, 3, 4, 5] 2 :=
  ⟨by decide,
    c5_sequential_pull_reconstructs tblW5 [9] ⟨[1, 2, 3, 4, 5], 0⟩ [1, 2, 3, 4, 5] 2
      (by decide) rfl (by decide) (by decide) (by decide)⟩

/-- If any pull in range is not answered with a part, the sequential
pull fails as a whole. -/
theorem pullChunks_none (tbl : List (GoStr × PayloadStream)) (id : List Nat) (c : Int) :
    ∀ (k s s₂ : Nat), s ≤ s₂ → s₂ < s + k →
      (∀ pt, rldpQueryHandler tbl (.getNextPayloadPart id (s₂ : Int) c) ≠ .answer pt) →
      pullChunks tbl id c k s = none := by
  intro k
  induction k with
  | zero => intro s s₂ h1 h2 _; omega
  | succ k ih =>
    intro s s₂ h1 h2 hne
    by_cases hs : s₂ = s
    · subst hs
      rcases hh : rldpQueryHandler tbl (.getNextPayloadPart id (s₂ : Int) c) with e | _ | pt
      · simp only [pullChunks, hh]
      · simp only [pullChunks, hh]
      · exact absurd hh (hne pt)
    · have hrec := ih (s + 1) s₂ (by omega) (by omega) hne
      rcases hh : rldpQueryHandler tbl (.getNextPayloadPart id (s : Int) c) with e | _ | pt
      · simp only [pullChunks, hh]
      · simp only [pullChunks, hh]
      · simp only [pullChunks, hh, hrec, Option.map_none']

/-- C5, counterexample: for the `2^31 + 1`-byte payload and chunk size
`2^30`, the third pull (`seqno = 2`) wraps the `int32` offset to
`-2^31`, which escapes the offset check and panics in the slice
expression, so the sequential pull does not reconstruct the payload:
the claim is false without a bound on the payload length. -/
theorem c5_counterexample : ¬ claimC5Prop tblBig [9] bigPayload (2 ^ 30) := by
  have hlen : bigPayload.length = 2 ^ 31 + 1 := by
    unfold bigPayload
    exact List.length_replicate _ _
  have hn : ceilDiv bigPayload.length (2 ^ 30) = 3 := by
    rw [hlen]
    decide
  have hlook : tblBig.lookup (hexEncode [9]) = some ⟨bigPayload, 0⟩ := rfl
  have h2 : rldpQueryHandler tblBig
      (.getNextPayloadPart [9] ((2 : Nat) : Int) ((2 ^ 30 : Nat) : Int)) = .panicked := by
    unfold rldpQueryHandler
    dsimp only
    rw [hlook]
    dsimp only
    have hw : wrap32 (((2 : Nat) : Int) * ((2 ^ 30 : Nat) : Int)) = -(2 ^ 31) := by
      unfold wrap32
      norm_num
    rw [hw]
    rw [if_neg (by rw [hlen]; norm_num)]
    rw [if_pos (by rw [hlen]; norm_num)]
    unfold goSlice
    rw [if_neg (fun h => absurd h.1 (by norm_num))]
  intro hclaim
  obtain ⟨parts, hpull, -, -⟩ := hclaim
  rw [hn] at hpull
  rw [pullChunks_none tblBig [9] ((2 ^ 30 : Nat) : Int) 3 0 2 (by omega) (by omega)
    (fun pt h => by rw [h2] at h; exact HandlerOutcome.noConfusion h)] at hpull
  exact Option.noConfusion hpull

/-- `findSome?` skips a prefix on which the selector yields nothing. -/
theorem findSome_append_none {α β : Type} (f : α → Option β) (l1 l2 : List α)
    (h : ∀ e ∈ l1, f e = none) : (l1 ++ l2).findSome? f = l2.findSome? f := by
  induction l1 with
  | nil => rfl
  | cons a l ih =>
    rw [List.cons_append, List.findSome?_cons]
    rw [h a (List.mem_cons_self a l)]
    exact ih fun e he => h e (List.mem_cons_of_mem a he)

/-- Every effect of the resolver retry is a resolution effect. -/
theorem resolveRetry_effects (o : Oracle) (host : GoStr) :
    ∀ e ∈ (resolveWithRetry o host).2, isResolutionEffect e = true := by
  intro e he
  unfold resolveWithRetry at he
  split at he <;> try split at he
  all_goals try split at he
  all_goals
    simp only [List.mem_cons, List.not_mem_nil, or_false] at he
  all_goals rcases he with rfl | he <;> try rfl
  all_goals rcases he with rfl | he <;> try rfl
  all_goals rcases he with rfl
  all_goals rfl

/-- Every effect of the candidate-connection loop is a resolution
effect. -/
theorem connectLoop_effects (o : Oracle) (host : GoStr) (clients : List (GoStr × Nat)) :
    ∀ (addrs : List Address) (le : Option GoError) (tried : List GoStr),
      ∀ e ∈ (connectLoop o host clients addrs le tried).2.2, isResolutionEffect e = true := by
  intro addrs
  induction addrs with
  | nil =>
    intro le tried e he
    rcases le with _ | e0 <;> simp only [connectLoop, List.not_mem_nil] at he
  | cons a rest ih =>
    intro le tried e he
    unfold connectLoop at he
    dsimp only at he
    split at he
    · dsimp only at he
      simp only [List.mem_cons, List.not_mem_nil, or_false] at he
      rcases he with rfl
      rfl
    · dsimp only at he
      simp only [List.mem_cons] at he
      rcases he with rfl | hmem
      · rfl
      · exact ih _ _ e hmem
/-- Every effect of the client-acquisition phase is a resolution
effect. -/
theorem acquire_effects_resolution (o : Oracle) (st : TState) (host : GoStr) :
    ∀ e ∈ (acquireClient o st host).2.2, isResolutionEffect e = true := by
  intro e he
  unfold acquireClient at he
  split at he
  · simp only [List.not_mem_nil] at he
  · dsimp only at he
    have hkey : ∀ eff ∈ ((if adnlSuffix.isSuffixOf host then
        match parseADNLAddress (host.take (host.length - 5)) with
        | .ok id => (Except.ok id, ([] : List Effect))
        | .error e => (Except.error (GoError.parseAddrFailed e), ([] : List Effect))
      else resolveWithRetry o host) : Except GoError (List Nat) × List Effect).2,
        isResolutionEffect eff = true := by
      intro eff heff
      split at heff
      · split at heff <;> simp only [List.not_mem_nil] at heff
      · exact resolveRetry_effects o host eff heff
    revert he
    generalize hgen : (if adnlSuffix.isSuffixOf host then
        match parseADNLAddress (host.take (host.length - 5)) with
        | .ok id => (Except.ok id, ([] : List Effect))
        | .error e => (Except.error (GoError.parseAddrFailed e), ([] : List Effect))
      else resolveWithRetry o host) = kr
    rw [hgen] at hkey
    intro he
    rcases kr with ⟨rres, reff⟩
    rcases rres with er | dr
    · dsimp only at he
      exact hkey e he
    · dsimp only at he
      split at he
      · rcases List.mem_append.mp he with hmem | hmem
        · exact hkey e hmem
        · simp only [List.mem_cons, List.not_mem_nil, or_false] at hmem
          rcases hmem with rfl
          rfl
      · dsimp only at he
        rcases List.mem_append.mp he with hmem | hmem
        · rcases List.mem_append.mp hmem with hmem2 | hmem2
          · exact hkey e hmem2
          · simp only [List.mem_cons, List.not_mem_nil, or_false] at hmem2
            rcases hmem2 with rfl
            rfl
        · exact connectLoop_effects o host st.rldpClients _ none [] e hmem

/-- A cache hit returns the cached client with no effects and no state
change. -/
theorem acquire_hit (o : Oracle) (st : TState) (host : GoStr) (c : Nat)
    (h : st.rldpClients.lookup host = some c) :
    acquireClient o st host = (.ok (some c), st, []) := by
  unfold acquireClient
  rw [h]

/-- Every effect of the body pull loop is a pull against the same
client. -/
theorem pullLoop_effects (o : Oracle) (c : Nat) (qid : List Nat) :
    ∀ (fuel : Nat) (seqno : Int) (np : Bool) (buf : List Nat)
      (tr : List (GoStr × List GoStr)),
      ∀ e ∈ (pullLoop o c qid fuel seqno np buf tr).2, ∃ s, e = Effect.pullPart c s := by
  intro fuel
  induction fuel with
  | zero =>
    intro seqno np buf tr e he
    cases np <;> simp only [pullLoop, List.not_mem_nil] at he
  | succ fuel ih =>
    intro seqno np buf tr e he
    cases np
    · unfold pullLoop at he
      split at he
      · dsimp only at he
        simp only [List.mem_cons, List.not_mem_nil, or_false] at he
        exact ⟨seqno, he⟩
      · dsimp only at he
        simp only [List.mem_cons] at he
        rcases he with rfl | hmem
        · exact ⟨seqno, rfl⟩
        · exact ih _ _ _ _ e hmem
    · simp only [pullLoop, List.not_mem_nil] at he

/-- C8: on a cache hit the dispatch reuses the cached client: it
performs no name resolution, no directory lookup and no connection
attempt, leaves the client cache (hence the entry for the hostname)
unchanged, and every RPC interaction of the call uses the cached
client. -/
theorem c8_cached_session_reused (o : Oracle) (fuel : Nat) (st : TState)
    (request : HttpRequest) (c : Nat)
    (h : st.rldpClients.lookup request.host = some c) :
    (roundTrip o fuel st request).2.1.rldpClients = st.rldpClients ∧
      ∀ e ∈ (roundTrip o fuel st request).2.2,
        isResolutionEffect e = false ∧ ∀ c', effClient e = some c' → c' = c := by
  unfold roundTrip
  rw [acquire_hit o st request.host c h]
  dsimp only
  rcases hb : request.body with _ | d <;> dsimp only <;>
    rcases hq : o.doQuery c (buildRequestMsg request (o.randBytes 32)) with eq | res <;>
      dsimp only
  case none.error =>
    refine ⟨rfl, fun e he => ?_⟩
    simp only [List.nil_append, List.mem_cons, List.not_mem_nil, or_false] at he
    subst he
    exact ⟨rfl, fun c' hc' => (Option.some.inj hc').symm⟩
  case some.error =>
    refine ⟨rfl, fun e he => ?_⟩
    simp only [List.nil_append, List.cons_append, List.mem_cons, List.not_mem_nil,
      or_false] at he
    rcases he with rfl | rfl
    · exact ⟨rfl, fun c' hc' => Option.noConfusion hc'⟩
    · exact ⟨rfl, fun c' hc' => (Option.some.inj hc').symm⟩
  all_goals
    rcases hm : mkHttpResponse request res with em | resp0 <;> dsimp only
  case none.ok.error =>
    refine ⟨rfl, fun e he => ?_⟩
    simp only [List.nil_append, List.mem_cons, List.not_mem_nil, or_false] at he
    rcases he with rfl | rfl
    · exact ⟨rfl, fun c' hc' => (Option.some.inj hc').symm⟩
    · exact ⟨rfl, fun c' hc' => Option.noConfusion hc'⟩
  case some.ok.error =>
    refine ⟨rfl, fun e he => ?_⟩
    simp only [List.nil_append, List.cons_append, List.mem_cons, List.not_mem_nil,
      or_false] at he
    rcases he with rfl | rfl | rfl
    · exact ⟨rfl, fun c' hc' => Option.noConfusion hc'⟩
    · exact ⟨rfl, fun c' hc' => (Option.some.inj hc').symm⟩
    · exact ⟨rfl, fun c' hc' => Option.noConfusion hc'⟩
  all_goals by_cases hcl : resp0.contentLength > 0
  all_goals first
    | rw [if_pos hcl]
    | rw [if_neg hcl]
  case neg =>
    refine ⟨rfl, fun e he => ?_⟩
    simp only [List.nil_append, List.mem_cons, List.not_mem_nil, or_false] at he
    rcases he with rfl | rfl
    · exact ⟨rfl, fun c' hc' => (Option.some.inj hc').symm⟩
    · exact ⟨rfl, fun c' hc' => Option.noConfusion hc'⟩
  case neg =>
    refine ⟨rfl, fun e he => ?_⟩
    simp only [List.nil_append, List.cons_append, List.mem_cons, List.not_mem_nil,
      or_false] at he
    rcases he with rfl | rfl | rfl
    · exact ⟨rfl, fun c' hc' => Option.noConfusion hc'⟩
    · exact ⟨rfl, fun c' hc' => (Option.some.inj hc').symm⟩
    · exact ⟨rfl, fun c' hc' => Option.noConfusion hc'⟩
  all_goals
    have hple := pullLoop_effects o c (o.randBytes 32) fuel 0 res.noPayload [] resp0.trailer
  all_goals
    rcases hp : pullLoop o c (o.randBytes 32) fuel 0 res.noPayload [] resp0.trailer
      with ⟨lo, eff4⟩
  all_goals rw [hp] at hple
  all_goals cases lo <;> dsimp only
  all_goals refine ⟨rfl, fun e he => ?_⟩
  all_goals
    simp only [List.nil_append, List.cons_append, List.append_assoc, List.mem_append,
      List.mem_cons, List.not_mem_nil, or_false, false_or] at he
  all_goals
    first
    | (rcases he with rfl | rfl | hmem
       · exact ⟨rfl, fun c' hc' => (Option.some.inj hc').symm⟩
       · exact ⟨rfl, fun c' hc' => Option.noConfusion hc'⟩
       · obtain ⟨s, rfl⟩ := hple e hmem
         exact ⟨rfl, fun c' hc' => (Option.some.inj hc').symm⟩)
    | (rcases he with rfl | rfl | rfl | hmem
       · exact ⟨rfl, fun c' hc' => Option.noConfusion hc'⟩
       · exact ⟨rfl, fun c' hc' => (Option.some.inj hc').symm⟩
       · exact ⟨rfl, fun c' hc' => Option.noConfusion hc'⟩
       · obtain ⟨s, rfl⟩ := hple e hmem
         exact ⟨rfl, fun c' hc' => (Option.some.inj hc').symm⟩)

/-- The content length of a successfully mapped response is the one
derived from the inbound request's own headers. -/
theorem mkHttpResponse_cl (request : HttpRequest) (res : ResponseMsg) (r : HttpResponse)
    (h : mkHttpResponse request res = .ok r) :
    derivedCL request = some r.contentLength := by
  unfold mkHttpResponse at h
  unfold derivedCL
  rcases hl : request.headers.lookup clKey with _ | ⟨_ | ⟨v, vs⟩⟩ <;>
    rw [hl] at h <;> dsimp only at h ⊢
  · obtain rfl := Except.ok.inj h
    rfl
  · obtain rfl := Except.ok.inj h
    rfl
  · rcases hp : parseInt64 v with _ | n <;> rw [hp] at h <;> dsimp only at h
    · exact Except.noConfusion h
    · obtain rfl := Except.ok.inj h
      rfl

/-- C7: whenever the dispatch returns a response, its content length is
the value derived from the inbound request's `Content-Length` header
(`-1` when absent), independent of the RLDP response message. -/
theorem c7_content_length_from_request (o : Oracle) (fuel : Nat) (st : TState)
    (request : HttpRequest) (resp : HttpResponse) (st2 : TState) (eff : List Effect)
    (h : roundTrip o fuel st request = (.ok resp, st2, eff)) :
    derivedCL request = some resp.contentLength := by
  unfold roundTrip at h
  rcases ha : acquireClient o st request.host with ⟨ra, st1, eff1⟩
  rw [ha] at h
  rcases ra with ea | rlOpt
  · dsimp only at h
    exact absurd (congrArg Prod.fst h) (by simp)
  · dsimp only at h
    rcases hb : request.body with _ | d <;> rw [hb] at h <;> dsimp only at h <;>
      rcases rlOpt with _ | c <;> dsimp only at h
    case none.none => exact absurd (congrArg Prod.fst h) (by simp)
    case some.none => exact absurd (congrArg Prod.fst h) (by simp)
    all_goals
      rcases hq : o.doQuery c (buildRequestMsg request (o.randBytes 32)) with e2 | res <;>
        rw [hq] at h <;> dsimp only at h
    case error => exact absurd (congrArg Prod.fst h) (by simp)
    case error => exact absurd (congrArg Prod.fst h) (by simp)
    all_goals
      rcases hm : mkHttpResponse request res with em | resp0 <;>
        rw [hm] at h <;> dsimp only at h
    case error => exact absurd (congrArg Prod.fst h) (by simp)
    case error => exact absurd (congrArg Prod.fst h) (by simp)
    all_goals by_cases hcl : resp0.contentLength > 0
    all_goals first
      | rw [if_pos hcl] at h
      | rw [if_neg hcl] at h
    all_goals try
      (injection h with h1 h2
       injection h1 with h1'
       subst h1'
       exact mkHttpResponse_cl request res resp0 hm)
    all_goals
      rcases hp : pullLoop o c (o.randBytes 32) fuel 0 res.noPayload [] resp0.trailer
        with ⟨lo, eff4⟩
    all_goals rw [hp] at h
    all_goals cases lo <;> dsimp only at h
    all_goals injection h with h1 h2
    all_goals injection h1
    all_goals rename_i h1'
    all_goals subst h1'
    all_goals exact mkHttpResponse_cl request res resp0 hm

/-- `findRpcMsg` skips any effect that is not an RPC request. -/
theorem findRpcMsg_cons_none (e : Effect) (l : List Effect)
    (h : ∀ c m, e ≠ Effect.rpcQuery c m) :
    findRpcMsg (e :: l) = findRpcMsg l := by
  unfold findRpcMsg
  rw [List.findSome?_cons]
  cases e <;> first | rfl | exact absurd rfl (h _ _)

/-- `findRpcMsg` returns the first RPC request message. -/
theorem findRpcMsg_cons_rpc (c : Nat) (m : RequestMsg) (l : List Effect) :
    findRpcMsg (Effect.rpcQuery c m :: l) = some m := by
  unfold findRpcMsg
  rw [List.findSome?_cons]

/-- `findRpcMsg` skips a prefix of resolution effects. -/
theorem findRpcMsg_append_resolution (eff1 : List Effect)
    (h1 : ∀ e ∈ eff1, isResolutionEffect e = true) (l : List Effect) :
    findRpcMsg (eff1 ++ l) = findRpcMsg l := by
  induction eff1 with
  | nil => rfl
  | cons a l1 ih =>
    rw [List.cons_append, findRpcMsg_cons_none]
    · exact ih fun e he => h1 e (List.mem_cons_of_mem a he)
    · intro c m hEq
      subst hEq
      exact Bool.noConfusion (h1 _ (List.mem_cons_self _ _))

/-- A list of resolution effects contains no RPC request. -/
theorem findRpcMsg_resolution_none (eff1 : List Effect)
    (h1 : ∀ e ∈ eff1, isResolutionEffect e = true) : findRpcMsg eff1 = none := by
  have h := findRpcMsg_append_resolution eff1 h1 []
  rw [List.append_nil] at h
  exact h

/-- C6 (amended): the `RequestMessage` sent by the dispatch carries the
freshly generated 32-byte random identifier (`rand.Read` into a 32-byte
buffer), and any outbound body is staged under the hex encoding of that
same identifier. -/
theorem c6_request_id_32_bytes (o : Oracle) (fuel : Nat) (st : TState)
    (request : HttpRequest) (m : RequestMsg)
    (h32 : (o.randBytes 32).length = 32)
    (hm : findRpcMsg (roundTrip o fuel st request).2.2 = some m) :
    m.id = o.randBytes 32 ∧ m.id.length = 32 ∧
      ∀ d, request.body = some d →
        Effect.staged (hexEncode m.id) d ∈ (roundTrip o fuel st request).2.2 := by
  unfold roundTrip at hm ⊢
  rcases ha : acquireClient o st request.host with ⟨ra, st1, eff1⟩
  rw [ha] at hm
  have hres : ∀ e ∈ eff1, isResolutionEffect e = true := by
    have h := acquire_effects_resolution o st request.host
    rw [ha] at h
    exact h
  rcases ra with ea | rlOpt
  · dsimp only at hm
    rw [findRpcMsg_resolution_none eff1 hres] at hm
    exact Option.noConfusion hm
  · dsimp only at hm ⊢
    rcases hb : request.body with _ | d <;> rw [hb] at hm <;> dsimp only at hm ⊢ <;>
      rcases rlOpt with _ | c <;> dsimp only at hm ⊢
    case none.none =>
      rw [findRpcMsg_resolution_none eff1 hres] at hm
      exact Option.noConfusion hm
    case some.none =>
      rw [findRpcMsg_append_resolution eff1 hres,
        findRpcMsg_cons_none _ _ (fun c m h => Effect.noConfusion h)] at hm
      exact Option.noConfusion hm
    all_goals
      rcases hq : o.doQuery c (buildRequestMsg request (o.randBytes 32)) with e2 | res <;>
        rw [hq] at hm <;> dsimp only at hm ⊢
    all_goals try
      (rcases hmm : mkHttpResponse request res with em | resp0 <;>
        rw [hmm] at hm <;> dsimp only at hm ⊢)
    all_goals try by_cases hcl : resp0.contentLength > 0
    all_goals try rw [if_pos hcl] at hm ⊢
    all_goals try rw [if_neg hcl] at hm ⊢
    all_goals try
      (rcases hp : pullLoop o c (o.randBytes 32) fuel 0 res.noPayload [] resp0.trailer
        with ⟨lo, eff4⟩
       rw [hp] at hm
       cases lo <;> dsimp only at hm ⊢)
    all_goals try simp only [List.cons_append, List.nil_append, List.append_assoc] at hm ⊢
    all_goals rw [findRpcMsg_append_resolution eff1 hres] at hm
    all_goals try rw [findRpcMsg_cons_none _ _ (fun c m h => Effect.noConfusion h)] at hm
    all_goals rw [findRpcMsg_cons_rpc] at hm
    all_goals obtain rfl := Option.some.inj hm
    all_goals refine ⟨rfl, h32, ?_⟩
    all_goals intro d0 hd0
    all_goals try exact Option.noConfusion hd0
    all_goals obtain rfl := Option.some.inj hd0
    all_goals exact List.mem_append_right _ (List.mem_cons_self _ _)

/-- Witness for C6 on a concrete successful exchange. -/
theorem c6_witness :
    (buildRequestMsg reqC3 (baseOracle.randBytes 32)).id.length = 32 :=
  (c6_request_id_32_bytes baseOracle 1 stHit reqC3
    (buildRequestMsg reqC3 (baseOracle.randBytes 32)) (by decide) (by decide)).2.1

/-- Witness for C7 on a concrete successful exchange with no
`Content-Length` header: the response's content length is `-1`. -/
theorem c7_witness : derivedCL reqC3 = some (-1) := by
  have h : roundTrip baseOracle 1 stHit reqC3 =
      (.ok ⟨ofString "200 OK", 200, [], -1, [], []⟩, ⟨[(hostX, 7)], []⟩,
        [Effect.rpcQuery 7 (buildRequestMsg reqC3 (List.replicate 32 0)),
          Effect.unstaged (hexEncode (List.replicate 32 0))]) := by decide
  exact c7_content_length_from_request baseOracle 1 stHit reqC3 _ _ _ h

/-- Witness for C8 on a concrete cache-hit run. -/
theorem c8_witness :
    stHit.rldpClients.lookup reqC3.host = some 7 ∧
      (roundTrip baseOracle 1 stHit reqC3).2.1.rldpClients = stHit.rldpClients :=
  ⟨by decide, (c8_cached_session_reused baseOracle 1 stHit reqC3 7 (by decide)).1⟩

/-- C10 (amended): for a cached host, a request with a non-nil body and
non-positive declared content length still has its body staged under the
request identifier, and the message mapper adds no `Content-Length`
header of its own — the built message carries none whenever the inbound
header collection carries none. -/
theorem c10_zero_length_body_staged (o : Oracle) (fuel : Nat) (st : TState)
    (request : HttpRequest) (c : Nat) (d : List Nat)
    (hhit : st.rldpClients.lookup request.host = some c)
    (hbody : request.body = some d) (hcl : request.contentLength ≤ 0)
    (hhdr : clKey ∉ request.headers.map Prod.fst) :
    Effect.staged (hexEncode (o.randBytes 32)) d ∈ (roundTrip o fuel st request).2.2 ∧
      ∀ hkv ∈ (buildRequestMsg request (o.randBytes 32)).headers, hkv.name ≠ clKey := by
  constructor
  · unfold roundTrip
    rw [acquire_hit o st request.host c hhit]
    dsimp only
    rw [hbody]
    dsimp only
    rcases hq : o.doQuery c (buildRequestMsg request (o.randBytes 32)) with e2 | res <;>
      dsimp only
    · simp
    · rcases hmm : mkHttpResponse request res with em | resp0 <;> dsimp only
      · simp
      · by_cases hclp : resp0.contentLength > 0
        · rw [if_pos hclp]
          rcases hp : pullLoop o c (o.randBytes 32) fuel 0 res.noPayload [] resp0.trailer
            with ⟨lo, eff4⟩
          cases lo <;> dsimp only <;> simp
        · rw [if_neg hclp]
          simp
  · intro hkv hmem
    unfold buildRequestMsg at hmem
    dsimp only at hmem
    rw [if_neg (by omega)] at hmem
    rw [List.cons_append, List.nil_append] at hmem
    rw [List.mem_cons] at hmem
    rcases hmem with rfl | hmem
    · exact (by decide : hostKey ≠ clKey)
    · rw [List.mem_flatMap] at hmem
      obtain ⟨kv, hkvmem, hmem2⟩ := hmem
      rw [List.mem_map] at hmem2
      obtain ⟨v, hv, rfl⟩ := hmem2
      intro hEq
      exact hhdr (hEq ▸ List.mem_map_of_mem Prod.fst hkvmem)

/-- Witness for C10 on a concrete run with declared content length 0. -/
theorem c10_witness :
    Effect.staged (hexEncode (baseOracle.randBytes 32)) [4] ∈
      (roundTrip baseOracle 1 stHit reqC10w).2.2 :=
  (c10_zero_length_body_staged baseOracle 1 stHit reqC10w 7 [4] (by decide) (by decide)
    (by decide) (by decide)).1
